import Mathlib

/-!
Shallow embedding of `src/src/sync.py` from the sync-contribution-graph
repository.

The program replicates commit timing metadata from a source git repository
into a destination repository as empty commits whose subject line is the
source commit's full hash.  The Python control flow is translated function
by function; the behaviour of the external `git` tool (log queries, commit
creation, the clock) and of `configparser` / `pathlib` is modelled
explicitly where the program depends on it.
-/

namespace Sync

/-- A process environment or environment-like mapping, as the Python `dict`
passed to `subprocess.run` via `env=...`.  Earlier entries shadow later
ones, matching the override order of `{**os.environ.copy(), ...}` (the
explicit keys win over the copied ambient environment). -/
abbrev Env := List (String × String)

/-- A commit of the destination repository, as far as this program observes
one: its message (used as the subject line) and the two timestamps git
records.  Replicated commits are empty (`--allow-empty`), so no tree is
modelled for them. -/
structure Commit where
  message : String
  author_date : String
  committer_date : String
  deriving DecidableEq, Repr

/-- `leadsWith needle l` is true when `needle` is an initial run of `l`. -/
def leadsWith : List Char → List Char → Bool
  | [], _ => true
  | _ :: _, [] => false
  | a :: as, b :: bs => a == b && leadsWith as bs

/-- `occursIn needle hay` is true when `needle` occurs contiguously inside
`hay`.  This models `git log --grep=<needle>` matching against a commit
message: the strings grepped for by this program are hex hashes, which
contain no regex metacharacters, so the match is a plain substring test. -/
def occursIn (needle : List Char) : List Char → Bool
  | [] => needle.isEmpty
  | c :: t => leadsWith needle (c :: t) || occursIn needle t

/-- `commit_exists` (sync.py lines 110-131): runs
`git log --format=format:%f --grep=<sha>` on the destination repository and
returns the truthiness of the output's length, i.e. true iff some commit
message of the destination contains `sha`. -/
def commit_exists (repo : List Commit) (sha : String) : Bool :=
  repo.any fun cm => occursIn sha.data cm.message.data

/-- The environment dict built for each `git commit` call (sync.py lines
185-189): the ambient environment plus `GIT_AUTHOR_DATE` and the key
`GIT_COMITER_DATE`, both spelled exactly as in the source. -/
def buildEnv (osEnviron : Env) (author_timestamp commit_timestamp : String) : Env :=
  ("GIT_AUTHOR_DATE", author_timestamp) ::
    ("GIT_COMITER_DATE", commit_timestamp) :: osEnviron

/-- Modelled external tool: `git commit --allow-empty -m msg` records the
message verbatim, takes the author date from the `GIT_AUTHOR_DATE`
environment variable (falling back to the clock value `now`) and the
committer date from the `GIT_COMMITTER_DATE` environment variable (falling
back to `now`). -/
def gitCommit (env : Env) (now msg : String) : Commit :=
  { message := msg
    author_date := (env.lookup "GIT_AUTHOR_DATE").getD now
    committer_date := (env.lookup "GIT_COMMITTER_DATE").getD now }

/-- Python `str.split` with the single-character separator `"|"`:
`splitOnChar sep l` splits `l` at every occurrence of `sep`, keeping empty
pieces, and yields `[[]]` on the empty list (Python `"".split("|") == [""]`). -/
def splitOnChar (sep : Char) : List Char → List (List Char)
  | [] => [[]]
  | c :: t =>
    match splitOnChar sep t with
    | [] => [[c]]
    | x :: xs => if c == sep then [] :: x :: xs else (c :: x) :: xs

/-- One line of `git log --format=format:%aD|%cD|%H` output, split into
author timestamp, committer timestamp and hash (sync.py line 167).  `none`
models the `ValueError` raised when the line does not unpack into exactly
three names, which the loop catches and skips. -/
def parseLine (line : String) : Option (String × String × String) :=
  match splitOnChar '|' line.data with
  | [a, c, sha] => some (String.mk a, String.mk c, String.mk sha)
  | _ => none

/-- The diagnostic printed to stderr when a hash was already replicated
(sync.py line 173). -/
def skipDiag (sha : String) : String :=
  s!"Commit for {sha} already exists. Skipping..."

/-- Outcome of a run of the replication loop: the destination repository's
commits, the skip diagnostics emitted, and either the returned count or the
propagated subprocess failure (`check=True` turning a nonzero exit into an
uncaught `CalledProcessError`, modelled as `Except.error ()`). -/
structure RunResult where
  repo : List Commit
  diags : List String
  result : Except Unit Nat
  deriving Repr

/-- The loop of `recreate_commits` (sync.py lines 164-193).  `osEnviron` is
the ambient process environment, `now` the clock value git would use for a
date not supplied via the environment, and `writeOk k` whether the k-th
`git commit` subprocess of this run (0-based over the commits actually
written) succeeds; on a failed write the exception aborts the loop with the
destination left as already written. -/
def runLoop (osEnviron : Env) (now : String) (writeOk : Nat → Bool) :
    List String → List Commit → List String → Nat → RunResult
  | [], repo, diags, count => ⟨repo, diags, Except.ok count⟩
  | line :: rest, repo, diags, count =>
    match parseLine line with
    | none => runLoop osEnviron now writeOk rest repo diags count
    | some (a, c, sha) =>
      if commit_exists repo sha then
        runLoop osEnviron now writeOk rest repo (diags ++ [skipDiag sha]) count
      else if writeOk count then
        runLoop osEnviron now writeOk rest
          (repo ++ [gitCommit (buildEnv osEnviron a c) now sha]) diags (count + 1)
      else ⟨repo, diags, Except.error ()⟩

/-- `recreate_commits` (sync.py lines 134-193): `lines` is the output of
`git log --format=format:%aD|%cD|%H --author <identity>` on the source
repository, split on newlines; `output_repo` is the destination history. -/
def recreate_commits (osEnviron : Env) (now : String) (writeOk : Nat → Bool)
    (lines : List String) (output_repo : List Commit) : RunResult :=
  runLoop osEnviron now writeOk lines output_repo [] 0

/-- The two `configparser` exceptions relevant to `get_git_email`. -/
inductive ConfigError
  | noSection
  | noOption
  deriving DecidableEq, Repr

/-- A parsed ini file: sections by name, each a list of option/value pairs. -/
abbrev GitConfig := List (String × List (String × String))

/-- `configparser.ConfigParser.get`: raises `NoSectionError` when the
section is absent and `NoOptionError` when the section exists but the
option is absent. -/
def configGet (config : GitConfig) (sectionName optionName : String) :
    Except ConfigError String :=
  match config.lookup sectionName with
  | none => Except.error ConfigError.noSection
  | some opts =>
    match opts.lookup optionName with
    | none => Except.error ConfigError.noOption
    | some v => Except.ok v

/-- `get_git_email` (sync.py lines 34-55): returns `user.email` from the
config file; on `NoOptionError` falls back to the `GIT_AUTHOR_EMAIL`
environment variable, then to `EMAIL`, then to `none`.  Only
`NoOptionError` is caught by the `try` block, so a `NoSectionError`
propagates out of the function as an uncaught exception (`Except.error`). -/
def get_git_email (config : GitConfig) (environ : Env) :
    Except ConfigError (Option String) :=
  match configGet config "user" "email" with
  | Except.ok v => Except.ok (some v)
  | Except.error ConfigError.noOption =>
    match environ.lookup "GIT_AUTHOR_EMAIL" with
    | some v => Except.ok (some v)
    | none => Except.ok (environ.lookup "EMAIL")
  | Except.error ConfigError.noSection => Except.error ConfigError.noSection

/-- A filesystem path, as its components relative to the root. -/
abbrev DirPath := List String

/-- `pathlib.Path.mkdir()` with default arguments: creates `p` only when
its parent directory already exists (the empty path `[]`, the root or
current directory, always exists); otherwise it raises `FileNotFoundError`,
modelled as `Except.error ()`.  No `parents=True` semantics. -/
def mkdirNoParents (existing : List DirPath) (p : DirPath) :
    Except Unit (List DirPath) :=
  if p.dropLast = [] ∨ p.dropLast ∈ existing then Except.ok (p :: existing)
  else Except.error ()

/-- The directory-handling step of `force_init_output` (sync.py lines
67-72): when the destination is already a directory nothing is created
(only its `.git` store is reset); otherwise the destination is created with
`output_dir.mkdir()` — the call carries no `parents=True`. -/
def force_init_output_dirs (existing : List DirPath) (output_dir : DirPath) :
    Except Unit (List DirPath) :=
  if output_dir ∈ existing then Except.ok existing
  else mkdirNoParents existing output_dir

/-- A commit recorded with its snapshot tree, for the initial commit that
`force_init_output` creates via `git add -A && git commit -am "Initial
commit"`. -/
structure InitCommit where
  message : String
  tree : List String
  deriving DecidableEq, Repr

/-- An existing destination directory: its working-tree entries (the names
other than `.git`) and its managed history store, when present. -/
structure OutputDir where
  files : List String
  git : Option (List InitCommit)
  deriving DecidableEq, Repr

/-- `force_init_output` on an existing directory (sync.py lines 67-87):
`shutil.rmtree` removes only the `.git` store when present, `git init`
creates a fresh store, the empty marker file `sync_repo.dat` is written
into the directory (overwriting any file of that name in place), then
`git add -A` stages every working-tree entry and `git commit` records them
all as the single commit "Initial commit". -/
def force_init_output_existing (d : OutputDir) : OutputDir :=
  let files1 := if "sync_repo.dat" ∈ d.files then d.files
                else d.files ++ ["sync_repo.dat"]
  { files := files1
    git := some [{ message := "Initial commit", tree := files1 }] }

/-- Observable outcome of the `local` subcommand of the CLI. -/
structure CliResult where
  repo : List Commit
  report : List String
  exit_code : Nat
  deriving Repr

/-- `sync_local` (sync.py lines 212-221) followed by the fall-through end
of `__main__` (line 298), on the successful path: `recreate_commits` is
called and its return value discarded (line 218); the report of the copied
count (lines 220-221) is commented out in the source, so no report line is
produced whatever the `--quiet` flag holds; the interpreter then exits with
status 0. -/
def sync_local (osEnviron : Env) (now : String) (lines : List String)
    (dest : List Commit) (_quiet : Bool) : CliResult :=
  { repo := (recreate_commits osEnviron now (fun _ => true) lines dest).repo
    report := []
    exit_code := 0 }

/-! ### Basic lemmas about the grep model and the loop -/

theorem leadsWith_refl (l : List Char) : leadsWith l l = true := by
  induction l with
  | nil => rfl
  | cons a t ih => simp [leadsWith, ih]

theorem occursIn_refl (l : List Char) : occursIn l l = true := by
  cases l with
  | nil => rfl
  | cons a t => simp [occursIn, leadsWith_refl]

theorem commit_exists_append (r1 r2 : List Commit) (sha : String) :
    commit_exists (r1 ++ r2) sha =
      (commit_exists r1 sha || commit_exists r2 sha) := by
  simp [commit_exists, List.any_append]

theorem commit_exists_mono (r1 r2 : List Commit) (sha : String)
    (hx : commit_exists r1 sha = true) :
    commit_exists (r1 ++ r2) sha = true := by
  simp [commit_exists_append, hx]

theorem commit_exists_self (repo : List Commit) (env : Env) (now sha : String) :
    commit_exists (repo ++ [gitCommit env now sha]) sha = true := by
  simp [commit_exists_append, commit_exists, gitCommit, occursIn_refl]

theorem runLoop_nil (e : Env) (now : String) (w : Nat → Bool)
    (repo : List Commit) (diags : List String) (count : Nat) :
    runLoop e now w [] repo diags count = ⟨repo, diags, Except.ok count⟩ := rfl

theorem runLoop_cons_malformed (e : Env) (now : String) (w : Nat → Bool)
    (line : String) (rest : List String) (repo : List Commit)
    (diags : List String) (count : Nat) (hp : parseLine line = none) :
    runLoop e now w (line :: rest) repo diags count =
      runLoop e now w rest repo diags count := by
  simp [runLoop, hp]

theorem runLoop_cons_skip (e : Env) (now : String) (w : Nat → Bool)
    (line : String) (rest : List String) (repo : List Commit)
    (diags : List String) (count : Nat) (a c sha : String)
    (hp : parseLine line = some (a, c, sha))
    (he : commit_exists repo sha = true) :
    runLoop e now w (line :: rest) repo diags count =
      runLoop e now w rest repo (diags ++ [skipDiag sha]) count := by
  simp [runLoop, hp, he]

theorem runLoop_cons_write (e : Env) (now : String) (w : Nat → Bool)
    (line : String) (rest : List String) (repo : List Commit)
    (diags : List String) (count : Nat) (a c sha : String)
    (hp : parseLine line = some (a, c, sha))
    (he : commit_exists repo sha = false)
    (hw : w count = true) :
    runLoop e now w (line :: rest) repo diags count =
      runLoop e now w rest
        (repo ++ [gitCommit (buildEnv e a c) now sha]) diags (count + 1) := by
  simp [runLoop, hp, he, hw]

theorem runLoop_cons_fail (e : Env) (now : String) (w : Nat → Bool)
    (line : String) (rest : List String) (repo : List Commit)
    (diags : List String) (count : Nat) (a c sha : String)
    (hp : parseLine line = some (a, c, sha))
    (he : commit_exists repo sha = false)
    (hw : w count = false) :
    runLoop e now w (line :: rest) repo diags count =
      ⟨repo, diags, Except.error ()⟩ := by
  simp [runLoop, hp, he, hw]

/-- Every run only appends to the destination, and every appended commit
comes verbatim from a parsed source-log line: its message is the hash field
of that line and its dates come from the environment the loop builds. -/
theorem runLoop_writes (e : Env) (now : String) (w : Nat → Bool)
    (lines : List String) :
    ∀ (repo : List Commit) (diags : List String) (count : Nat),
      ∃ new : List Commit,
        (runLoop e now w lines repo diags count).repo = repo ++ new ∧
        ∀ cm ∈ new, ∃ line ∈ lines, ∃ a c : String,
          parseLine line = some (a, c, cm.message) ∧
          cm = gitCommit (buildEnv e a c) now cm.message := by
  induction lines with
  | nil =>
    intro repo diags count
    exact ⟨[], by simp [runLoop_nil], by simp⟩
  | cons line rest ih =>
    intro repo diags count
    cases hp : parseLine line with
    | none =>
      obtain ⟨new, h1, h2⟩ := ih repo diags count
      rw [runLoop_cons_malformed e now w line rest repo diags count hp]
      refine ⟨new, h1, fun cm hcm => ?_⟩
      obtain ⟨l, hl, a2, c2, hpl, hcm2⟩ := h2 cm hcm
      exact ⟨l, List.mem_cons_of_mem _ hl, a2, c2, hpl, hcm2⟩
    | some t =>
      obtain ⟨a, c, sha⟩ := t
      cases he : commit_exists repo sha with
      | true =>
        obtain ⟨new, h1, h2⟩ := ih repo (diags ++ [skipDiag sha]) count
        rw [runLoop_cons_skip e now w line rest repo diags count a c sha hp he]
        refine ⟨new, h1, fun cm hcm => ?_⟩
        obtain ⟨l, hl, a2, c2, hpl, hcm2⟩ := h2 cm hcm
        exact ⟨l, List.mem_cons_of_mem _ hl, a2, c2, hpl, hcm2⟩
      | false =>
        cases hw : w count with
        | true =>
          obtain ⟨new, h1, h2⟩ :=
            ih (repo ++ [gitCommit (buildEnv e a c) now sha]) diags (count + 1)
          rw [runLoop_cons_write e now w line rest repo diags count a c sha hp he hw]
          refine ⟨gitCommit (buildEnv e a c) now sha :: new, ?_, ?_⟩
          · rw [h1, List.append_assoc]
            rfl
          · intro cm hcm
            rcases List.mem_cons.mp hcm with hcm | hcm
            · subst hcm
              exact ⟨line, List.mem_cons_self _ _, a, c, hp, rfl⟩
            · obtain ⟨l, hl, a2, c2, hpl, hcm2⟩ := h2 cm hcm
              exact ⟨l, List.mem_cons_of_mem _ hl, a2, c2, hpl, hcm2⟩
        | false =>
          rw [runLoop_cons_fail e now w line rest repo diags count a c sha hp he hw]
          exact ⟨[], by simp, by simp⟩

/-- A hash already present in the destination is still present after any
run: the loop never removes commits. -/
theorem runLoop_preserves_present (e : Env) (now : String) (w : Nat → Bool)
    (lines : List String) (repo : List Commit) (diags : List String)
    (count : Nat) (sha : String) (hx : commit_exists repo sha = true) :
    commit_exists (runLoop e now w lines repo diags count).repo sha = true := by
  obtain ⟨new, h1, -⟩ := runLoop_writes e now w lines repo diags count
  rw [h1]
  exact commit_exists_mono repo new sha hx

/-- After a run that returns a count (no write failed), the hash of every
well-formed source-log line is present in the destination: it was either
present before the run or written by it. -/
theorem runLoop_hash_present (e : Env) (now : String) (w : Nat → Bool)
    (lines : List String) :
    ∀ (repo : List Commit) (diags : List String) (count n : Nat),
      (runLoop e now w lines repo diags count).result = Except.ok n →
      ∀ line ∈ lines, ∀ a c sha : String,
        parseLine line = some (a, c, sha) →
        commit_exists (runLoop e now w lines repo diags count).repo sha = true := by
  induction lines with
  | nil =>
    intro repo diags count n _ line hl
    exact absurd hl (by simp)
  | cons line0 rest ih =>
    intro repo diags count n hok line hl a c sha hp
    cases hp0 : parseLine line0 with
    | none =>
      rw [runLoop_cons_malformed e now w line0 rest repo diags count hp0] at hok ⊢
      rcases List.mem_cons.mp hl with hl0 | hl0
      · subst hl0
        rw [hp0] at hp
        exact absurd hp (by simp)
      · exact ih repo diags count n hok line hl0 a c sha hp
    | some t =>
      obtain ⟨a0, c0, s0⟩ := t
      cases he : commit_exists repo s0 with
      | true =>
        rw [runLoop_cons_skip e now w line0 rest repo diags count a0 c0 s0 hp0 he] at hok ⊢
        rcases List.mem_cons.mp hl with hl0 | hl0
        · subst hl0
          have hinj := hp0.symm.trans hp
          simp only [Option.some.injEq, Prod.mk.injEq] at hinj
          obtain ⟨-, -, hs⟩ := hinj
          subst hs
          exact runLoop_preserves_present e now w rest repo
            (diags ++ [skipDiag s0]) count s0 he
        · exact ih repo (diags ++ [skipDiag s0]) count n hok line hl0 a c sha hp
      | false =>
        cases hw : w count with
        | true =>
          rw [runLoop_cons_write e now w line0 rest repo diags count a0 c0 s0 hp0 he hw]
            at hok ⊢
          rcases List.mem_cons.mp hl with hl0 | hl0
          · subst hl0
            have hinj := hp0.symm.trans hp
            simp only [Option.some.injEq, Prod.mk.injEq] at hinj
            obtain ⟨-, -, hs⟩ := hinj
            subst hs
            exact runLoop_preserves_present e now w rest
              (repo ++ [gitCommit (buildEnv e a0 c0) now s0]) diags (count + 1) s0
              (commit_exists_self repo (buildEnv e a0 c0) now s0)
          · exact ih (repo ++ [gitCommit (buildEnv e a0 c0) now s0]) diags
              (count + 1) n hok line hl0 a c sha hp
        | false =>
          rw [runLoop_cons_fail e now w line0 rest repo diags count a0 c0 s0 hp0 he hw]
            at hok
          exact absurd hok (by simp)

/-- When the hash of every well-formed line is already present in the
destination, the whole run only emits skip diagnostics: the destination is
untouched and the count passed in is returned unchanged. -/
theorem runLoop_all_present (e : Env) (now : String) (w : Nat → Bool)
    (lines : List String) :
    ∀ (repo : List Commit) (diags : List String) (count : Nat),
      (∀ line ∈ lines, ∀ a c sha : String,
        parseLine line = some (a, c, sha) → commit_exists repo sha = true) →
      ∃ d2 : List String,
        runLoop e now w lines repo diags count = ⟨repo, d2, Except.ok count⟩ := by
  induction lines with
  | nil =>
    intro repo diags count _
    exact ⟨diags, runLoop_nil e now w repo diags count⟩
  | cons line0 rest ih =>
    intro repo diags count hall
    cases hp0 : parseLine line0 with
    | none =>
      rw [runLoop_cons_malformed e now w line0 rest repo diags count hp0]
      exact ih repo diags count fun l hl => hall l (List.mem_cons_of_mem _ hl)
    | some t =>
      obtain ⟨a0, c0, s0⟩ := t
      have he : commit_exists repo s0 = true :=
        hall line0 (List.mem_cons_self _ _) a0 c0 s0 hp0
      rw [runLoop_cons_skip e now w line0 rest repo diags count a0 c0 s0 hp0 he]
      exact ih repo (diags ++ [skipDiag s0]) count
        fun l hl => hall l (List.mem_cons_of_mem _ hl)

/-- Accounting of a completed run: the returned count is the number of
commits appended, and together with the number of skip diagnostics it
exhausts the well-formed source-log lines. -/
theorem runLoop_count (e : Env) (now : String) (w : Nat → Bool)
    (lines : List String) :
    ∀ (repo : List Commit) (diags : List String) (count n : Nat),
      (runLoop e now w lines repo diags count).result = Except.ok n →
      ∃ (new : List Commit) (newd : List String),
        (runLoop e now w lines repo diags count).repo = repo ++ new ∧
        (runLoop e now w lines repo diags count).diags = diags ++ newd ∧
        n = count + new.length ∧
        new.length + newd.length = (lines.filterMap parseLine).length := by
  induction lines with
  | nil =>
    intro repo diags count n hok
    rw [runLoop_nil] at hok
    have hcn : count = n := by simpa using hok
    refine ⟨[], [], by simp [runLoop_nil], by simp [runLoop_nil],
      by simpa using hcn.symm, by simp⟩
  | cons line0 rest ih =>
    intro repo diags count n hok
    cases hp0 : parseLine line0 with
    | none =>
      rw [runLoop_cons_malformed e now w line0 rest repo diags count hp0] at hok ⊢
      obtain ⟨new, newd, h1, h2, h3, h4⟩ := ih repo diags count n hok
      refine ⟨new, newd, h1, h2, h3, ?_⟩
      simp [List.filterMap_cons, hp0, h4]
    | some t =>
      obtain ⟨a0, c0, s0⟩ := t
      cases he : commit_exists repo s0 with
      | true =>
        rw [runLoop_cons_skip e now w line0 rest repo diags count a0 c0 s0 hp0 he]
          at hok ⊢
        obtain ⟨new, newd, h1, h2, h3, h4⟩ :=
          ih repo (diags ++ [skipDiag s0]) count n hok
        refine ⟨new, skipDiag s0 :: newd, h1, ?_, h3, ?_⟩
        · rw [h2, List.append_assoc]
          rfl
        · rw [List.filterMap_cons, hp0]
          simp only [List.length_cons]
          omega
      | false =>
        cases hw : w count with
        | true =>
          rw [runLoop_cons_write e now w line0 rest repo diags count a0 c0 s0 hp0 he hw]
            at hok ⊢
          obtain ⟨new, newd, h1, h2, h3, h4⟩ :=
            ih (repo ++ [gitCommit (buildEnv e a0 c0) now s0]) diags (count + 1) n hok
          refine ⟨gitCommit (buildEnv e a0 c0) now s0 :: new, newd, ?_, h2, ?_, ?_⟩
          · rw [h1, List.append_assoc]
            rfl
          · simp only [List.length_cons]
            omega
          · rw [List.filterMap_cons, hp0]
            simp only [List.length_cons]
            omega
        | false =>
          rw [runLoop_cons_fail e now w line0 rest repo diags count a0 c0 s0 hp0 he hw]
            at hok
          exact absurd hok (by simp)

/-- When a run aborts with a write failure, the destination still extends
its starting state by the commits written before the failure, the failed
write is exactly the next one (`writeOk` is false at the number of commits
successfully written so far), and each persisted commit is a verbatim
replication of a source-log line. -/
theorem runLoop_error (e : Env) (now : String) (w : Nat → Bool)
    (lines : List String) :
    ∀ (repo : List Commit) (diags : List String) (count : Nat),
      (runLoop e now w lines repo diags count).result = Except.error () →
      ∃ new : List Commit,
        (runLoop e now w lines repo diags count).repo = repo ++ new ∧
        w (count + new.length) = false ∧
        ∀ cm ∈ new, ∃ line ∈ lines, ∃ a c : String,
          parseLine line = some (a, c, cm.message) ∧
          cm = gitCommit (buildEnv e a c) now cm.message := by
  induction lines with
  | nil =>
    intro repo diags count herr
    rw [runLoop_nil] at herr
    exact absurd herr (by simp)
  | cons line0 rest ih =>
    intro repo diags count herr
    cases hp0 : parseLine line0 with
    | none =>
      rw [runLoop_cons_malformed e now w line0 rest repo diags count hp0] at herr ⊢
      obtain ⟨new, h1, h2, h3⟩ := ih repo diags count herr
      refine ⟨new, h1, h2, fun cm hcm => ?_⟩
      obtain ⟨l, hl, a2, c2, hpl, hcm2⟩ := h3 cm hcm
      exact ⟨l, List.mem_cons_of_mem _ hl, a2, c2, hpl, hcm2⟩
    | some t =>
      obtain ⟨a0, c0, s0⟩ := t
      cases he : commit_exists repo s0 with
      | true =>
        rw [runLoop_cons_skip e now w line0 rest repo diags count a0 c0 s0 hp0 he]
          at herr ⊢
        obtain ⟨new, h1, h2, h3⟩ := ih repo (diags ++ [skipDiag s0]) count herr
        refine ⟨new, h1, h2, fun cm hcm => ?_⟩
        obtain ⟨l, hl, a2, c2, hpl, hcm2⟩ := h3 cm hcm
        exact ⟨l, List.mem_cons_of_mem _ hl, a2, c2, hpl, hcm2⟩
      | false =>
        cases hw : w count with
        | true =>
          rw [runLoop_cons_write e now w line0 rest repo diags count a0 c0 s0 hp0 he hw]
            at herr ⊢
          obtain ⟨new, h1, h2, h3⟩ :=
            ih (repo ++ [gitCommit (buildEnv e a0 c0) now s0]) diags (count + 1) herr
          refine ⟨gitCommit (buildEnv e a0 c0) now s0 :: new, ?_, ?_, ?_⟩
          · rw [h1, List.append_assoc]
            rfl
          · have harg : count + (gitCommit (buildEnv e a0 c0) now s0 :: new).length =
                (count + 1) + new.length := by
              simp only [List.length_cons]
              omega
            rw [harg]
            exact h2
          · intro cm hcm
            rcases List.mem_cons.mp hcm with hcm | hcm
            · subst hcm
              exact ⟨line0, List.mem_cons_self _ _, a0, c0, hp0, rfl⟩
            · obtain ⟨l, hl, a2, c2, hpl, hcm2⟩ := h3 cm hcm
              exact ⟨l, List.mem_cons_of_mem _ hl, a2, c2, hpl, hcm2⟩
        | false =>
          rw [runLoop_cons_fail e now w line0 rest repo diags count a0 c0 s0 hp0 he hw]
            at herr ⊢
          refine ⟨[], by simp, by simpa using hw, by simp⟩

/-- A source-log line that does not split into exactly three fields raises
the caught `ValueError`: `parseLine` yields `none`. -/
theorem parseLine_of_not_three (line : String)
    (hm : (splitOnChar '|' line.data).length ≠ 3) : parseLine line = none := by
  unfold parseLine
  split
  · rename_i a c sha heq
    rw [heq] at hm
    simp at hm
  · rfl

/-! ### Claims -/

/-- C1: running `recreate_commits` a second time with the same source log
and the same destination, after a first successful run (one that returned
a count), writes zero new Replicated Entries and returns 0, and the
destination's list of commits — in particular its set of subjects — is the
same after the second run as after the first.  The second run's ambient
environment, clock and write oracle are arbitrary: it never writes. -/
theorem C1_replication_idempotent (e : Env) (now : String) (w : Nat → Bool)
    (e2 : Env) (now2 : String) (w2 : Nat → Bool)
    (lines : List String) (repo0 : List Commit) (n : Nat)
    (hok : (recreate_commits e now w lines repo0).result = Except.ok n) :
    (recreate_commits e2 now2 w2 lines
        (recreate_commits e now w lines repo0).repo).result = Except.ok 0 ∧
    (recreate_commits e2 now2 w2 lines
        (recreate_commits e now w lines repo0).repo).repo =
      (recreate_commits e now w lines repo0).repo ∧
    (recreate_commits e2 now2 w2 lines
        (recreate_commits e now w lines repo0).repo).repo.map Commit.message =
      (recreate_commits e now w lines repo0).repo.map Commit.message := by
  have hall := runLoop_hash_present e now w lines repo0 [] 0 n hok
  obtain ⟨d2, hrun⟩ := runLoop_all_present e2 now2 w2 lines
    ((runLoop e now w lines repo0 [] 0).repo) [] 0 hall
  refine ⟨?_, ?_, ?_⟩ <;> simp only [recreate_commits] <;> rw [hrun]

theorem C1_witness :
    (recreate_commits [] "T1" (fun _ => true) ["A|C|aaa111"] []).result =
        Except.ok 1 ∧
    ((recreate_commits [] "T2" (fun _ => false) ["A|C|aaa111"]
          (recreate_commits [] "T1" (fun _ => true) ["A|C|aaa111"] []).repo).result =
        Except.ok 0 ∧
      (recreate_commits [] "T2" (fun _ => false) ["A|C|aaa111"]
          (recreate_commits [] "T1" (fun _ => true) ["A|C|aaa111"] []).repo).repo =
        (recreate_commits [] "T1" (fun _ => true) ["A|C|aaa111"] []).repo ∧
      (recreate_commits [] "T2" (fun _ => false) ["A|C|aaa111"]
          (recreate_commits [] "T1" (fun _ => true) ["A|C|aaa111"] []).repo).repo.map
          Commit.message =
        (recreate_commits [] "T1" (fun _ => true) ["A|C|aaa111"] []).repo.map
          Commit.message) :=
  ⟨rfl, C1_replication_idempotent [] "T1" (fun _ => true) [] "T2" (fun _ => false)
    ["A|C|aaa111"] [] 1 rfl⟩

/-- C2 (code bug): the environment dict the write step builds spells the
committer-date key `GIT_COMITER_DATE` (sync.py line 188), so the
`GIT_COMMITTER_DATE` variable git actually reads is absent from it, and the
written commit's committer timestamp is the current clock, not the source
record's committer timestamp.  The author timestamp is copied correctly.
Here the committer timestamp of the written entry is `"CLOCK"`, not the
source's `"C_TS"`. -/
theorem C2_committer_timestamp_not_copied :
    (buildEnv [] "A_TS" "C_TS").lookup "GIT_COMMITTER_DATE" = none ∧
    (recreate_commits [] "CLOCK" (fun _ => true) ["A_TS|C_TS|aaa111"] []).repo =
      [{ message := "aaa111", author_date := "A_TS", committer_date := "CLOCK" }] ∧
    "CLOCK" ≠ "C_TS" :=
  ⟨rfl, rfl, by decide⟩

/-- C3: when `recreate_commits` completes, the count it returns is exactly
the number of Replicated Entries newly appended to the destination during
that run; each well-formed source record is otherwise skipped with one
diagnostic and no increment, so the written entries and the diagnostics
together exhaust the well-formed log lines. -/
theorem C3_returns_newly_written_count (e : Env) (now : String) (w : Nat → Bool)
    (lines : List String) (repo0 : List Commit) (n : Nat)
    (hok : (recreate_commits e now w lines repo0).result = Except.ok n) :
    ∃ new : List Commit,
      (recreate_commits e now w lines repo0).repo = repo0 ++ new ∧
      n = new.length ∧
      new.length + (recreate_commits e now w lines repo0).diags.length =
        (lines.filterMap parseLine).length := by
  obtain ⟨new, newd, h1, h2, h3, h4⟩ := runLoop_count e now w lines repo0 [] 0 n hok
  refine ⟨new, h1, by simpa using h3, ?_⟩
  rw [show (recreate_commits e now w lines repo0).diags = [] ++ newd from h2]
  simpa using h4

theorem C3_witness :
    ∃ new : List Commit,
      (recreate_commits [] "NOW" (fun _ => true)
          ["A|C|aaa111", "A|C|aaa111", "oops"] []).repo = [] ++ new ∧
      1 = new.length ∧
      new.length +
          (recreate_commits [] "NOW" (fun _ => true)
            ["A|C|aaa111", "A|C|aaa111", "oops"] []).diags.length =
        ((["A|C|aaa111", "A|C|aaa111", "oops"] : List String).filterMap
          parseLine).length :=
  C3_returns_newly_written_count [] "NOW" (fun _ => true)
    ["A|C|aaa111", "A|C|aaa111", "oops"] [] 1 rfl

/-- C4: every commit present in the destination after a run either was
there before the run or is a Replicated Entry whose subject is verbatim the
hash field of a source-log line — the hash is carried through unchanged,
never recomputed or transformed. -/
theorem C4_subject_is_source_hash (e : Env) (now : String) (w : Nat → Bool)
    (lines : List String) (repo0 : List Commit) :
    ∀ cm ∈ (recreate_commits e now w lines repo0).repo,
      cm ∈ repo0 ∨ ∃ line ∈ lines, ∃ a c : String,
        parseLine line = some (a, c, cm.message) := by
  intro cm hcm
  obtain ⟨new, h1, h2⟩ := runLoop_writes e now w lines repo0 [] 0
  rw [show (recreate_commits e now w lines repo0).repo = repo0 ++ new from h1] at hcm
  rcases List.mem_append.mp hcm with hcm | hcm
  · exact Or.inl hcm
  · obtain ⟨line, hl, a, c, hpl, -⟩ := h2 cm hcm
    exact Or.inr ⟨line, hl, a, c, hpl⟩

theorem C4_witness :
    (⟨"aaa111", "A", "NOW"⟩ : Commit) ∈ ([] : List Commit) ∨
      ∃ line ∈ ["A|C|aaa111"], ∃ a c : String,
        parseLine line = some (a, c, (⟨"aaa111", "A", "NOW"⟩ : Commit).message) :=
  C4_subject_is_source_hash [] "NOW" (fun _ => true) ["A|C|aaa111"] []
    ⟨"aaa111", "A", "NOW"⟩ (by decide)

/-- C5 (code bug): `get_git_email` only catches `NoOptionError`, so a
configuration lacking the `user` section altogether raises an uncaught
`NoSectionError` instead of falling through to the environment variables —
contradicting the function's own docstring ("Falls back to
GIT_AUTHOR_EMAIL then to EMAIL then to None if user.email is not set").
With a `user` section present but `email` absent the fallback does work. -/
theorem C5_missing_user_section_raises :
    get_git_email [] [("GIT_AUTHOR_EMAIL", "user@example.com")] =
      Except.error ConfigError.noSection ∧
    get_git_email [("user", [])] [("GIT_AUTHOR_EMAIL", "user@example.com")] =
      Except.ok (some "user@example.com") :=
  ⟨rfl, rfl⟩

/-- C6 (code bug): the non-existing-destination branch of
`force_init_output` calls `output_dir.mkdir()` without `parents=True`
(sync.py line 72), so a destination whose intermediate parent directories
are absent raises `FileNotFoundError` instead of being created —
contradicting the function's docstring ("create the directory (and parents
if necessary)") and the `--force` help text.  Creating a destination whose
direct parent exists does succeed. -/
theorem C6_missing_parent_raises :
    force_init_output_dirs [["a"]] ["a", "b", "c"] = Except.error () ∧
    force_init_output_dirs [["a"]] ["a", "b"] =
      Except.ok [["a", "b"], ["a"]] :=
  ⟨rfl, rfl⟩

/-- C7: a source-log line that does not split into exactly the three
expected fields is silently skipped wherever it occurs: the whole run —
destination state, diagnostics and returned count or error — is identical
to the run over the log without that line. -/
theorem C7_malformed_line_skipped (e : Env) (now : String) (w : Nat → Bool)
    (pre post : List String) (line : String) (repo0 : List Commit)
    (hm : (splitOnChar '|' line.data).length ≠ 3) :
    recreate_commits e now w (pre ++ line :: post) repo0 =
      recreate_commits e now w (pre ++ post) repo0 := by
  have hp := parseLine_of_not_three line hm
  simp only [recreate_commits]
  suffices hgen : ∀ (pr : List String) (repo : List Commit) (diags : List String)
      (count : Nat),
      runLoop e now w (pr ++ line :: post) repo diags count =
        runLoop e now w (pr ++ post) repo diags count from hgen pre repo0 [] 0
  intro pr
  induction pr with
  | nil =>
    intro repo diags count
    simpa using runLoop_cons_malformed e now w line post repo diags count hp
  | cons p pr2 ih =>
    intro repo diags count
    cases hq : parseLine p with
    | none =>
      rw [List.cons_append, List.cons_append,
        runLoop_cons_malformed e now w p (pr2 ++ line :: post) repo diags count hq,
        runLoop_cons_malformed e now w p (pr2 ++ post) repo diags count hq]
      exact ih repo diags count
    | some t =>
      obtain ⟨a0, c0, s0⟩ := t
      cases he : commit_exists repo s0 with
      | true =>
        rw [List.cons_append, List.cons_append,
          runLoop_cons_skip e now w p (pr2 ++ line :: post) repo diags count
            a0 c0 s0 hq he,
          runLoop_cons_skip e now w p (pr2 ++ post) repo diags count
            a0 c0 s0 hq he]
        exact ih repo (diags ++ [skipDiag s0]) count
      | false =>
        cases hw : w count with
        | true =>
          rw [List.cons_append, List.cons_append,
            runLoop_cons_write e now w p (pr2 ++ line :: post) repo diags count
              a0 c0 s0 hq he hw,
            runLoop_cons_write e now w p (pr2 ++ post) repo diags count
              a0 c0 s0 hq he hw]
          exact ih (repo ++ [gitCommit (buildEnv e a0 c0) now s0]) diags (count + 1)
        | false =>
          rw [List.cons_append, List.cons_append,
            runLoop_cons_fail e now w p (pr2 ++ line :: post) repo diags count
              a0 c0 s0 hq he hw,
            runLoop_cons_fail e now w p (pr2 ++ post) repo diags count
              a0 c0 s0 hq he hw]

theorem C7_witness :
    recreate_commits [] "NOW" (fun _ => true)
        (["A|C|aaa111"] ++ "oops" :: ["B|D|bbb222"]) [] =
      recreate_commits [] "NOW" (fun _ => true)
        (["A|C|aaa111"] ++ ["B|D|bbb222"]) [] :=
  C7_malformed_line_skipped [] "NOW" (fun _ => true) ["A|C|aaa111"] ["B|D|bbb222"]
    "oops" [] (by decide)

/-- C8: when a write fails, `recreate_commits` raises (the run ends in the
propagated subprocess error, processing no further records), yet the
destination keeps everything written before the failure: its state is the
starting state extended by the successfully written Replicated Entries,
each a verbatim replication of a source record, and the failed write is
exactly the next one after those — nothing is rolled back. -/
theorem C8_prior_writes_persist (e : Env) (now : String) (w : Nat → Bool)
    (lines : List String) (repo0 : List Commit)
    (herr : (recreate_commits e now w lines repo0).result = Except.error ()) :
    ∃ new : List Commit,
      (recreate_commits e now w lines repo0).repo = repo0 ++ new ∧
      w new.length = false ∧
      ∀ cm ∈ new, ∃ line ∈ lines, ∃ a c : String,
        parseLine line = some (a, c, cm.message) ∧
        cm = gitCommit (buildEnv e a c) now cm.message := by
  obtain ⟨new, h1, h2, h3⟩ := runLoop_error e now w lines repo0 [] 0 herr
  exact ⟨new, h1, by simpa using h2, h3⟩

theorem C8_witness :
    ∃ new : List Commit,
      (recreate_commits [] "NOW" (fun k => k == 0)
          ["A|C|aaa111", "B|D|bbb222"] []).repo = [] ++ new ∧
      (new.length == 0) = false ∧
      ∀ cm ∈ new, ∃ line ∈ ["A|C|aaa111", "B|D|bbb222"], ∃ a c : String,
        parseLine line = some (a, c, cm.message) ∧
        cm = gitCommit (buildEnv [] a c) "NOW" cm.message :=
  C8_prior_writes_persist [] "NOW" (fun k => k == 0)
    ["A|C|aaa111", "B|D|bbb222"] [] rfl

/-- C9 (counterexample to the claim as stated): on a successful local sync
that newly replicates one entry, with `--quiet` off, the process exits 0
but surfaces no report at all — the engine's count is discarded and the
reporting statement is commented out in the source, so the count is not
reported to the operator. -/
theorem C9_count_not_reported :
    (recreate_commits [] "NOW" (fun _ => true) ["A|C|aaa111"] []).result =
        Except.ok 1 ∧
    (sync_local [] "NOW" ["A|C|aaa111"] [] false).exit_code = 0 ∧
    (sync_local [] "NOW" ["A|C|aaa111"] [] false).report = [] :=
  ⟨rfl, rfl, rfl⟩

/-- C9 (amended): on successful completion the local sync subcommand exits
with status zero, and the number of newly replicated entries is not
reported to the operator regardless of `--quiet` — the reporting is left
as a TODO in the source. -/
theorem C9_exits_zero_without_report (e : Env) (now : String)
    (lines : List String) (dest : List Commit) (q : Bool) :
    (sync_local e now lines dest q).exit_code = 0 ∧
    (sync_local e now lines dest q).report = [] :=
  ⟨rfl, rfl⟩

/-- C10: reinitializing an existing destination that already contains a
managed history store deletes only the `.git` store: every other file
already present survives in place, nothing else appears beyond the marker
file, and the fresh history is the single initial commit whose tree (via
`git add -A`) contains the marker and all surviving working-tree files. -/
theorem C10_only_git_store_replaced (files : List String)
    (hist : List InitCommit) :
    (∀ f ∈ files, f ∈ (force_init_output_existing ⟨files, some hist⟩).files) ∧
    "sync_repo.dat" ∈ (force_init_output_existing ⟨files, some hist⟩).files ∧
    (force_init_output_existing ⟨files, some hist⟩).git =
      some [⟨"Initial commit",
        (force_init_output_existing ⟨files, some hist⟩).files⟩] ∧
    (∀ f ∈ (force_init_output_existing ⟨files, some hist⟩).files,
      f ∈ files ∨ f = "sync_repo.dat") := by
  by_cases hmark : "sync_repo.dat" ∈ files
  · refine ⟨?_, ?_, ?_, ?_⟩
    · intro f hf
      simpa [force_init_output_existing, hmark] using hf
    · simp [force_init_output_existing, hmark]
    · simp [force_init_output_existing, hmark]
    · intro f hf
      rw [show (force_init_output_existing ⟨files, some hist⟩).files = files from by
        simp [force_init_output_existing, hmark]] at hf
      exact Or.inl hf
  · refine ⟨?_, ?_, ?_, ?_⟩
    · intro f hf
      simp [force_init_output_existing, hmark, hf]
    · simp [force_init_output_existing, hmark]
    · simp [force_init_output_existing, hmark]
    · intro f hf
      rw [show (force_init_output_existing ⟨files, some hist⟩).files =
          files ++ ["sync_repo.dat"] from by
        simp [force_init_output_existing, hmark]] at hf
      simpa using List.mem_append.mp hf

theorem C10_witness :
    (∀ f ∈ ["keep.txt"],
      f ∈ (force_init_output_existing ⟨["keep.txt"], some []⟩).files) ∧
    "sync_repo.dat" ∈ (force_init_output_existing ⟨["keep.txt"], some []⟩).files ∧
    (force_init_output_existing ⟨["keep.txt"], some []⟩).git =
      some [⟨"Initial commit",
        (force_init_output_existing ⟨["keep.txt"], some []⟩).files⟩] ∧
    (∀ f ∈ (force_init_output_existing ⟨["keep.txt"], some []⟩).files,
      f ∈ ["keep.txt"] ∨ f = "sync_repo.dat") :=
  C10_only_git_store_replaced ["keep.txt"] []

end Sync
